import Mathlib

/-!
Shallow embedding of the connector-accessToken-ts HTTP client core:
the shared retry loops (`DeviceAccessBase`, `UserAccessBase`,
`BruceHandlerBase`), URL template formatting, header construction and
error-message formatting, together with theorems checking the
natural-language specification against them.
-/

set_option maxRecDepth 4000

/-! ## Constants from `src/utils/constants.ts` -/

def MAX_RETRIES : Nat := 15

def RETRY_DELAY : Nat × Nat := (2, 4)

namespace Protocol

def HTTP : String := "http"

def HTTPS : String := "https"

end Protocol

def DEVICE_DATA_BY_TIME_RANGE_URL : String :=
  "{protocol}://{backend_url}/api/account/deviceData/getData/{devID}/{sensor}/{sTime}/{eTime}/{downSample}"

def BRUCE_GET_SOURCE_INSIGHT_URL : String :=
  "{protocol}://{data_url}/api/account/bruce/userInsight/fetch/getSourceInsight/{insightID}"

/-! ## JavaScript `String.prototype.replace` with a string pattern
(replaces only the first occurrence), modelled on `List Char`. -/

def replaceFirst (p r : List Char) : List Char → List Char
  | [] => if p = [] then r else []
  | c :: s =>
    if p.isPrefixOf (c :: s) then r ++ (c :: s).drop p.length
    else c :: replaceFirst p r s

def jsReplace (p r s : String) : String := ⟨replaceFirst p.data r.data s.data⟩

/-- Whether pattern `p` matches inside `s` at some position. -/
def occursB (p s : List Char) : Bool :=
  (List.range (s.length + 1)).any fun i => p.isPrefixOf (s.drop i)

/-- Whether `p` matches at some position strictly inside `a` of a string
of the form `a ++ p ++ b` (position `< a.length`); `b` does not matter
because such a match is decided within `a ++ p` already. -/
def noEarlyMatch (p a : List Char) : Bool :=
  (List.range a.length).all fun i => !(p.isPrefixOf (a.drop i ++ p))

/-! ## The retry loop shared (as three literal source copies) by the
`requestWithRetry` / `postWithRetry` / `putWithRetry` helpers.

A transport is a function from the 1-based attempt index to the result
of that dispatch.  `runRetry t sleepMs attempt fuel lastError` models
the `while (attempt < MAX_RETRIES)` loop with `fuel` dispatches still
permitted; it returns the outcome (`Except.error lastError` mirrors
`throw lastError`, where the error is `none` only if the loop never
ran), the number of dispatches performed, and the list of sleep
durations (milliseconds) in order. -/

structure RetryRun (ε α : Type) where
  outcome : Except (Option ε) α
  dispatches : Nat
  sleepsMs : List Nat
  deriving Repr

def runRetry (t : Nat → Except ε α) (sleepMs : Nat → Nat) :
    Nat → Nat → Option ε → RetryRun ε α
  | _, 0, le => ⟨Except.error le, 0, []⟩
  | attempt, fuel + 1, _ =>
    match t (attempt + 1) with
    | Except.ok a => ⟨Except.ok a, 1, []⟩
    | Except.error e =>
      if fuel = 0 then ⟨Except.error (some e), 1, []⟩
      else
        let rest := runRetry t sleepMs (attempt + 1) fuel (some e)
        ⟨rest.outcome, rest.dispatches + 1, sleepMs (attempt + 1) :: rest.sleepsMs⟩

/-- Generic exponential backoff formula of the spec,
`delay(n) = min(baseDelay * 2^(n-1), maxDelay)`. -/
def backoffDelay (baseDelay maxDelay n : Nat) : Nat :=
  min (baseDelay * 2 ^ (n - 1)) maxDelay

/-! ## `DeviceAccessBase` (src/connectors/DeviceAccess/base.ts) -/

/-- Shared instance fields of the three base classes
(`dataUrl`, `accessToken`, `onPrem`, `tz`). -/
structure Ctx where
  dataUrl : String
  accessToken : String
  onPrem : Bool
  tz : String := "UTC"

namespace DeviceAccessBase

/-- Delay (seconds) computed inside the loop:
`Math.min(RETRY_DELAY[0] * Math.pow(2, attempt - 1), RETRY_DELAY[1])`. -/
def delaySeconds (attempt : Nat) : Nat :=
  min (RETRY_DELAY.1 * 2 ^ (attempt - 1)) RETRY_DELAY.2

/-- Milliseconds passed to `setTimeout` (`delay * 1000`). -/
def sleepMs (attempt : Nat) : Nat := delaySeconds attempt * 1000

def requestWithRetry (t : Nat → Except ε α) : RetryRun ε α :=
  runRetry t sleepMs 0 MAX_RETRIES none

def postWithRetry (t : Nat → Except ε α) : RetryRun ε α :=
  runRetry t sleepMs 0 MAX_RETRIES none

def putWithRetry (t : Nat → Except ε α) : RetryRun ε α :=
  runRetry t sleepMs 0 MAX_RETRIES none

def formatUrl (ctx : Ctx) (template : String) (onPrem : Option Bool := none) : String :=
  let protocol := if onPrem.getD ctx.onPrem then Protocol.HTTP else Protocol.HTTPS
  jsReplace "{backend_url}" ctx.dataUrl (jsReplace "{protocol}" protocol template)

end DeviceAccessBase

/-! ## JavaScript object maps.

A JS object is an insertion-ordered map with unique keys.  The spread
`{Authorization: ..., ...extraHeaders}` starts from the singleton object
and assigns the entries of `extraHeaders` in order: an existing key is
updated in place, a fresh key is appended. -/

def setKey : List (String × α) → String → α → List (String × α)
  | [], k, v => [(k, v)]
  | (k', v') :: rest, k, v =>
    if k' = k then (k, v) :: rest else (k', v') :: setKey rest k v

def spreadInto (base extra : List (String × α)) : List (String × α) :=
  extra.foldl (fun m kv => setKey m kv.1 kv.2) base

def getKey : List (String × α) → String → Option α
  | [], _ => none
  | (k', v') :: rest, k => if k' = k then some v' else getKey rest k

def keyList (m : List (String × α)) : List String := m.map Prod.fst

def countKey (m : List (String × α)) (k : String) : Nat := (keyList m).count k

namespace DeviceAccessBase

/-- `createHeaders`: `{ Authorization: Bearer <token>, ...extraHeaders }`
with string-valued extra headers (`Record<string, string>`). -/
def createHeaders (ctx : Ctx) (extraHeaders : List (String × String) := []) :
    List (String × String) :=
  spreadInto [("Authorization", "Bearer " ++ ctx.accessToken)] extraHeaders

end DeviceAccessBase

/-! ## `UserAccessBase` (UserAccess base.ts, see the UserAccess module
README): `createHeaders` merges possibly-undefined extra header values
(`Partial<Record<string, string>>`, modelled as `Option String`) and
filters out `undefined` values; `requestWithRetry` uses local constants
`maxRetries = 5`, `delayMs = 1000` and a constant delay. -/

namespace UserAccessBase

def maxRetries : Nat := 5

def delayMs : Nat := 1000

def createHeaders (ctx : Ctx) (extraHeaders : List (String × Option String) := []) :
    List (String × Option String) :=
  (spreadInto [("Authorization", some ("Bearer " ++ ctx.accessToken))] extraHeaders).filter
    fun kv => kv.2.isSome

def requestWithRetry (t : Nat → Except ε α) : RetryRun ε α :=
  runRetry t (fun _ => delayMs) 0 maxRetries none

end UserAccessBase

/-! ## `BruceHandlerBase` (BruceHandler base, src/unnamed/part_009):
same loop and constants as `DeviceAccessBase`, but on exhaustion an
axios error is wrapped via `errorMessage(lastError.response, url)`. -/

/-- The part of an axios response used by `errorMessage`:
`status`, `headers.server` and `data`. -/
structure AxiosResp where
  status : Nat
  server : Option String
  data : String

/-- A transport failure as seen by the Bruce retry loop: either an
axios error (carrying an optional response) or some other thrown value. -/
inductive TransportError where
  | axios (response : Option AxiosResp)
  | other (tag : String)

/-- The error thrown to the caller: `Error(errorMessage(...))` for an
axios error, the raw last error otherwise (`none` = the `null` initial
value). -/
inductive BruceFailure where
  | wrapped (msg : String)
  | raw (e : Option TransportError)

/-- JavaScript `x || d` on an optional string: `undefined` and `""` both
fall back to the default. -/
def jsOrDefault (s : Option String) (d : String) : String :=
  match s with
  | none => d
  | some v => if v = "" then d else v

namespace BruceHandlerBase

def delaySeconds (attempt : Nat) : Nat :=
  min (RETRY_DELAY.1 * 2 ^ (attempt - 1)) RETRY_DELAY.2

def sleepMs (attempt : Nat) : Nat := delaySeconds attempt * 1000

def errorMessage (response : Option AxiosResp) (url : String) : String :=
  match response with
  | none => "\n[URL] " ++ url ++ "\n[EXCEPTION] No response received"
  | some r =>
    "\n[STATUS CODE] " ++ toString r.status ++ "\n[URL] " ++ url ++
      "\n[SERVER INFO] " ++ jsOrDefault r.server "Unknown Server" ++
      "\n[RESPONSE] " ++ r.data

def formatUrl (ctx : Ctx) (template : String) (onPrem : Option Bool := none) : String :=
  let protocol := if onPrem.getD ctx.onPrem then Protocol.HTTP else Protocol.HTTPS
  jsReplace "{data_url}" ctx.dataUrl (jsReplace "{protocol}" protocol template)

/-- Post-loop wrapping: `if (axios.isAxiosError(lastError)) throw new
Error(this.errorMessage(lastError.response, url)); throw lastError;`. -/
def wrapLastError (le : Option TransportError) (url : String) : BruceFailure :=
  match le with
  | some (TransportError.axios resp) => BruceFailure.wrapped (errorMessage resp url)
  | e => BruceFailure.raw e

structure BruceRun (α : Type) where
  outcome : Except BruceFailure α
  dispatches : Nat
  sleepsMs : List Nat

def finish (r : RetryRun TransportError α) (url : String) : BruceRun α :=
  { outcome :=
      match r.outcome with
      | Except.ok a => Except.ok a
      | Except.error le => Except.error (wrapLastError le url)
    dispatches := r.dispatches
    sleepsMs := r.sleepsMs }

def requestWithRetry (t : Nat → Except TransportError α) (url : String) : BruceRun α :=
  finish (runRetry t sleepMs 0 MAX_RETRIES none) url

def putWithRetry (t : Nat → Except TransportError α) (url : String) : BruceRun α :=
  finish (runRetry t sleepMs 0 MAX_RETRIES none) url

def postWithRetry (t : Nat → Except TransportError α) (url : String) : BruceRun α :=
  finish (runRetry t sleepMs 0 MAX_RETRIES none) url

end BruceHandlerBase

/-! ## JavaScript `encodeURIComponent`.

Leaves `A-Z a-z 0-9 - _ . ! ~ * ' ( )` unchanged and percent-encodes
every other character as the uppercase-hex UTF-8 bytes of its code
point. -/

def isUnreservedURI (c : Char) : Bool :=
  c.isAlpha || c.isDigit || "-_.!~*'()".data.contains c

def utf8Bytes (v : Nat) : List Nat :=
  if v < 0x80 then [v]
  else if v < 0x800 then [0xC0 + v / 64, 0x80 + v % 64]
  else if v < 0x10000 then [0xE0 + v / 4096, 0x80 + v / 64 % 64, 0x80 + v % 64]
  else [0xF0 + v / 262144, 0x80 + v / 4096 % 64, 0x80 + v / 64 % 64, 0x80 + v % 64]

def hexDigit (n : Nat) : Char := "0123456789ABCDEF".data.getD n '0'

def percentEncodeByte (b : Nat) : List Char :=
  ['%', hexDigit (b / 16 % 16), hexDigit (b % 16)]

def encodeChar (c : Char) : List Char :=
  if isUnreservedURI c then [c]
  else (utf8Bytes c.toNat).foldr (fun b acc => percentEncodeByte b ++ acc) []

def encodeURIComponent (s : String) : String :=
  ⟨s.data.foldr (fun c acc => encodeChar c ++ acc) []⟩

/-! ## URL composition call sites cited by the spec. -/

/-- `DeviceTimeDataHandler.getDataByTimeRange` URL composition
(src/connectors/DeviceAccess/deviceTimeData.ts): raw placeholder
substitution, then `formatUrl`.  `sTime`/`eTime`/`downSample` are the
already-converted numbers. -/
def getDataByTimeRangeUrl (ctx : Ctx) (devID sensor : String)
    (sTime eTime downSample : Nat) : String :=
  DeviceAccessBase.formatUrl ctx
    (jsReplace "{downSample}" (toString downSample)
      (jsReplace "{eTime}" (toString eTime)
        (jsReplace "{sTime}" (toString sTime)
          (jsReplace "{sensor}" sensor
            (jsReplace "{devID}" devID DEVICE_DATA_BY_TIME_RANGE_URL)))))
    none

/-- `SourceInsightsHandler.fetchSourceInsight` URL composition
(src/connectors/BruceHandler/sourceInsights.ts, line 89): `formatUrl`,
then percent-encoded `{insightID}` substitution. -/
def fetchSourceInsightUrl (ctx : Ctx) (onPrem : Option Bool) (insightID : String) : String :=
  jsReplace "{insightID}" (encodeURIComponent insightID)
    (BruceHandlerBase.formatUrl ctx BRUCE_GET_SOURCE_INSIGHT_URL onPrem)

/-- Lift a string-valued header map to an `Option`-valued one. -/
def liftHeaders (m : List (String × String)) : List (String × Option String) :=
  m.map fun kv => (kv.1, some kv.2)

/-- Constructor supplying the default `tz`. -/
def mkCtx (dataUrl accessToken : String) (onPrem : Bool) : Ctx :=
  { dataUrl := dataUrl, accessToken := accessToken, onPrem := onPrem }

/-- String infix, via explicit surrounding pieces. -/
def strInfix (p s : String) : Prop := ∃ x y, s = x ++ p ++ y

/-! # Theorems -/

/-! ## Core lemmas about the retry loop -/

theorem runRetry_always_fails {ε α : Type} (errs : Nat → ε) (t : Nat → Except ε α)
    (s : Nat → Nat) (h : ∀ k, t k = Except.error (errs k)) :
    ∀ (fuel attempt : Nat) (le : Option ε),
      runRetry t s attempt (fuel + 1) le =
        ⟨Except.error (some (errs (attempt + fuel + 1))), fuel + 1,
          (List.range' (attempt + 1) fuel).map s⟩ := by
  intro fuel
  induction fuel with
  | zero => intro attempt le; simp [runRetry, h]
  | succ f ih =>
    intro attempt le
    rw [runRetry]
    simp only [h (attempt + 1)]
    rw [if_neg (Nat.succ_ne_zero f)]
    rw [ih (attempt + 1)]
    rw [show attempt + 1 + f = attempt + (f + 1) from by omega]
    simp [List.range'_succ]

theorem runRetry_succeeds_after {ε α : Type} (errs : Nat → ε) (a : α)
    (t : Nat → Except ε α) (s : Nat → Nat) :
    ∀ (m attempt fuel : Nat) (le : Option ε),
      (∀ j, 1 ≤ j → j ≤ m → t (attempt + j) = Except.error (errs (attempt + j))) →
      t (attempt + m + 1) = Except.ok a →
      m + 1 ≤ fuel →
      runRetry t s attempt fuel le =
        ⟨Except.ok a, m + 1, (List.range' (attempt + 1) m).map s⟩ := by
  intro m
  induction m with
  | zero =>
    intro attempt fuel le _ hs hle
    match fuel, hle with
    | f + 1, _ =>
      rw [runRetry]
      have : t (attempt + 1) = Except.ok a := by simpa using hs
      simp [this]
  | succ mm ih =>
    intro attempt fuel le hf hs hle
    match fuel, hle with
    | f + 1, hle =>
      rw [runRetry]
      have h1 : t (attempt + 1) = Except.error (errs (attempt + 1)) := by
        have := hf 1 le_rfl (Nat.succ_le_succ (Nat.zero_le mm))
        simpa using this
      simp only [h1]
      have hfne : f ≠ 0 := by omega
      rw [if_neg hfne]
      rw [ih (attempt + 1) f (some (errs (attempt + 1)))
        (fun j h1j hjm => by
          have := hf (j + 1) (Nat.le_add_left 1 j) (Nat.succ_le_succ hjm)
          have harr : attempt + (j + 1) = attempt + 1 + j := by omega
          rw [harr] at this
          exact this)
        (by
          have harr : attempt + (mm + 1) + 1 = attempt + 1 + mm + 1 := by omega
          rw [harr] at hs
          exact hs)
        (by omega)]
      simp [List.range'_succ]

/-! ## C1 -/

/-- C1: for every transport that fails on every attempt, a single call to
`requestWithRetry` (likewise `postWithRetry`/`putWithRetry`) performs
exactly `MAX_RETRIES` dispatches and terminates with an error carrying
the last underlying failure (wrapped via `errorMessage` in the Bruce
variant); it never returns a success value. -/
theorem retry_exhaustion_spec :
    (∀ (ε α : Type) (errs : Nat → ε) (t : Nat → Except ε α),
      (∀ k, t k = Except.error (errs k)) →
      DeviceAccessBase.requestWithRetry t =
        ⟨Except.error (some (errs MAX_RETRIES)), MAX_RETRIES,
          (List.range' 1 (MAX_RETRIES - 1)).map DeviceAccessBase.sleepMs⟩ ∧
      DeviceAccessBase.postWithRetry t = DeviceAccessBase.requestWithRetry t ∧
      DeviceAccessBase.putWithRetry t = DeviceAccessBase.requestWithRetry t) ∧
    (∀ (α : Type) (errs : Nat → TransportError) (t : Nat → Except TransportError α)
      (url : String),
      (∀ k, t k = Except.error (errs k)) →
      (BruceHandlerBase.requestWithRetry t url).dispatches = MAX_RETRIES ∧
      (BruceHandlerBase.requestWithRetry t url).outcome =
        Except.error (BruceHandlerBase.wrapLastError (some (errs MAX_RETRIES)) url) ∧
      ∀ a, (BruceHandlerBase.requestWithRetry t url).outcome ≠ Except.ok a) := by
  constructor
  · intro ε α errs t h
    refine ⟨?_, rfl, rfl⟩
    unfold DeviceAccessBase.requestWithRetry
    exact runRetry_always_fails errs t _ h 14 0 none
  · intro α errs t url h
    have e : runRetry t BruceHandlerBase.sleepMs 0 MAX_RETRIES none =
        ⟨Except.error (some (errs MAX_RETRIES)), MAX_RETRIES,
          (List.range' 1 (MAX_RETRIES - 1)).map BruceHandlerBase.sleepMs⟩ :=
      runRetry_always_fails errs t _ h 14 0 none
    unfold BruceHandlerBase.requestWithRetry
    rw [e]
    exact ⟨rfl, rfl, fun a hc => by simp [BruceHandlerBase.finish] at hc⟩

/-- Witness for C1 at a concrete always-failing transport. -/
theorem retry_exhaustion_spec_witness :
    DeviceAccessBase.requestWithRetry (fun k => (Except.error k : Except Nat Nat)) =
      ⟨Except.error (some 15), 15,
        [2000, 4000, 4000, 4000, 4000, 4000, 4000, 4000, 4000, 4000, 4000, 4000,
          4000, 4000]⟩ := by
  have h :=
    (retry_exhaustion_spec.1 Nat Nat (fun k => k) (fun k => Except.error k)
      (fun k => rfl)).1
  exact h.trans (by rfl)

/-! ## C2 -/

/-- C2: a transport failing the first `n` attempts (`1 ≤ n ≤
MAX_RETRIES - 1`) and succeeding on attempt `n + 1` yields exactly
`n + 1` dispatches, the successful body, and one sleep of
`delaySeconds k * 1000` milliseconds between attempt `k` and `k + 1`
for each `k ≤ n` (none after the success). -/
theorem retry_success_after_failures (n : Nat) (hn1 : 1 ≤ n)
    (hn2 : n ≤ MAX_RETRIES - 1) {ε α : Type} (errs : Nat → ε) (a : α)
    (t : Nat → Except ε α)
    (hf : ∀ k, 1 ≤ k → k ≤ n → t k = Except.error (errs k))
    (hs : t (n + 1) = Except.ok a) :
    DeviceAccessBase.requestWithRetry t =
      ⟨Except.ok a, n + 1, (List.range' 1 n).map DeviceAccessBase.sleepMs⟩ := by
  unfold DeviceAccessBase.requestWithRetry
  refine runRetry_succeeds_after errs a t _ n 0 MAX_RETRIES none
    (fun j h1 h2 => by simpa using hf j h1 h2) (by simpa using hs) ?_
  unfold MAX_RETRIES at hn2 ⊢
  omega

/-- Witness for C2 with two failures then a success. -/
theorem retry_success_after_failures_witness :
    DeviceAccessBase.requestWithRetry
        (fun k => if k ≤ 2 then (Except.error k : Except Nat Nat) else Except.ok 99) =
      ⟨Except.ok 99, 3, [2000, 4000]⟩ := by
  have h :=
    retry_success_after_failures 2 (by decide) (by decide) (fun k => k) 99
      (fun k => if k ≤ 2 then (Except.error k : Except Nat Nat) else Except.ok 99)
      (fun k h1 h2 => by simp only []; rw [if_pos h2]) (by rfl)
  exact h.trans (by rfl)

/-! ## C3 -/

/-- C3: the backoff delay before attempt `n + 1` is
`min(baseDelay * 2^(n-1), maxDelay)` with the configured base 2 and cap
4 (seconds; multiplied by 1000 at the sleep call site), so the
sequence is `delay(1) = 2` and `delay(n) = 4` for all `n ≥ 2`. -/
theorem backoff_delay_spec :
    (∀ n, DeviceAccessBase.delaySeconds n = backoffDelay RETRY_DELAY.1 RETRY_DELAY.2 n) ∧
    (∀ n, DeviceAccessBase.sleepMs n = backoffDelay 2 4 n * 1000) ∧
    DeviceAccessBase.delaySeconds 1 = 2 ∧
    (∀ n, 2 ≤ n → DeviceAccessBase.delaySeconds n = 4) := by
  refine ⟨fun n => rfl, fun n => rfl, rfl, fun n hn => ?_⟩
  show min (2 * 2 ^ (n - 1)) 4 = 4
  have h2 : 2 ^ 1 ≤ 2 ^ (n - 1) := Nat.pow_le_pow_right (by norm_num) (by omega)
  have h4 : 4 ≤ 2 * 2 ^ (n - 1) := by
    calc 4 = 2 * 2 ^ 1 := by norm_num
    _ ≤ 2 * 2 ^ (n - 1) := Nat.mul_le_mul_left 2 h2
  exact Nat.min_eq_right h4

/-- Witness for C3 at attempt index 5. -/
theorem backoff_delay_spec_witness :
    2 ≤ 5 ∧ DeviceAccessBase.delaySeconds 5 = 4 :=
  ⟨by decide, backoff_delay_spec.2.2.2 5 (by decide)⟩

/-! ## C4 -/

/-- C4 counterexample: the same always-failing transport produces 15
dispatches with exponential 2s/4s backoff in `DeviceAccessBase` but
only 5 dispatches with a constant 1000 ms delay in `UserAccessBase`,
so the retry helpers do not all share one process-wide policy. -/
theorem user_retry_policy_diverges :
    (UserAccessBase.requestWithRetry (fun k => (Except.error k : Except Nat Nat))).dispatches
        = 5 ∧
    (UserAccessBase.requestWithRetry (fun k => (Except.error k : Except Nat Nat))).sleepsMs
        = [1000, 1000, 1000, 1000] ∧
    (DeviceAccessBase.requestWithRetry (fun k => (Except.error k : Except Nat Nat))).dispatches
        = 15 ∧
    (UserAccessBase.requestWithRetry (fun k => (Except.error k : Except Nat Nat))).dispatches
        ≠ (DeviceAccessBase.requestWithRetry
            (fun k => (Except.error k : Except Nat Nat))).dispatches :=
  ⟨rfl, rfl, rfl, by decide⟩

/-- C4 amended: `DeviceAccessBase` and `BruceHandlerBase` share the
process-wide policy (15 attempts, base 2 s, cap 4 s, exponential), and
for any transport their loops produce identical dispatch counts and
sleep sequences; `UserAccessBase.requestWithRetry` instead uses 5
attempts with a constant 1000 ms delay. -/
theorem retry_policy_amended :
    MAX_RETRIES = 15 ∧ RETRY_DELAY = (2, 4) ∧
    BruceHandlerBase.delaySeconds = DeviceAccessBase.delaySeconds ∧
    BruceHandlerBase.sleepMs = DeviceAccessBase.sleepMs ∧
    (∀ (α : Type) (t : Nat → Except TransportError α) (url : String),
      (BruceHandlerBase.requestWithRetry t url).dispatches =
        (DeviceAccessBase.requestWithRetry t).dispatches ∧
      (BruceHandlerBase.requestWithRetry t url).sleepsMs =
        (DeviceAccessBase.requestWithRetry t).sleepsMs) ∧
    UserAccessBase.maxRetries = 5 ∧ UserAccessBase.delayMs = 1000 :=
  ⟨rfl, rfl, rfl, rfl, fun _ _ _ => ⟨rfl, rfl⟩, rfl, rfl⟩

/-! ## Lemmas about JS object maps -/

theorem getKey_setKey_self (m : List (String × α)) (k : String) (v : α) :
    getKey (setKey m k v) k = some v := by
  induction m with
  | nil => simp [setKey, getKey]
  | cons kv rest ih =>
    obtain ⟨k', v'⟩ := kv
    by_cases h : k' = k
    · simp [setKey, h, getKey]
    · simp [setKey, h, getKey, ih]

theorem getKey_setKey_ne (m : List (String × α)) (k k' : String) (v : α)
    (h : k' ≠ k) : getKey (setKey m k v) k' = getKey m k' := by
  have h2 : ¬ k = k' := fun he => h he.symm
  induction m with
  | nil => simp [setKey, getKey, h2]
  | cons kv rest ih =>
    obtain ⟨k'', v''⟩ := kv
    by_cases hk : k'' = k
    · subst hk
      simp [setKey, getKey, h2]
    · simp only [setKey, if_neg hk, getKey]
      by_cases hq : k'' = k'
      · simp [hq]
      · simp [hq, ih]

theorem keyList_setKey (m : List (String × α)) (k : String) (v : α) :
    keyList (setKey m k v) =
      if k ∈ keyList m then keyList m else keyList m ++ [k] := by
  induction m with
  | nil => simp [setKey, keyList]
  | cons kv rest ih =>
    obtain ⟨k', v'⟩ := kv
    by_cases h : k' = k
    · subst h
      simp [setKey, keyList]
    · have h2 : ¬ k = k' := fun he => h he.symm
      by_cases hm : k ∈ keyList rest
      · simp [setKey, keyList, h, hm, ih] at ih ⊢
        simp [keyList] at hm
        simp [hm, ih]
      · simp only [keyList] at hm ih ⊢
        rw [if_neg hm] at ih
        simp only [setKey, if_neg h, List.map_cons, ih]
        rw [if_neg (by simp [hm, h2])]
        simp

theorem nodup_keyList_setKey (m : List (String × α)) (k : String) (v : α)
    (h : (keyList m).Nodup) : (keyList (setKey m k v)).Nodup := by
  rw [keyList_setKey]
  by_cases hm : k ∈ keyList m
  · rwa [if_pos hm]
  · rw [if_neg hm]
    simp [List.nodup_append, h, hm]

theorem mem_keyList_setKey_self (m : List (String × α)) (k : String) (v : α) :
    k ∈ keyList (setKey m k v) := by
  rw [keyList_setKey]
  by_cases hm : k ∈ keyList m
  · rwa [if_pos hm]
  · rw [if_neg hm]
    simp

theorem mem_keyList_setKey_of_mem (m : List (String × α)) (k k' : String) (v : α)
    (h : k' ∈ keyList m) : k' ∈ keyList (setKey m k v) := by
  rw [keyList_setKey]
  by_cases hm : k ∈ keyList m
  · rwa [if_pos hm]
  · rw [if_neg hm]
    exact List.mem_append_left _ h

theorem nodup_keyList_spreadInto (extra : List (String × α)) :
    ∀ m : List (String × α), (keyList m).Nodup →
      (keyList (spreadInto m extra)).Nodup := by
  induction extra with
  | nil => intro m h; exact h
  | cons kv rest ih =>
    intro m h
    exact ih (setKey m kv.1 kv.2) (nodup_keyList_setKey m kv.1 kv.2 h)

theorem mem_keyList_spreadInto (extra : List (String × α)) (k : String) :
    ∀ m : List (String × α), k ∈ keyList m → k ∈ keyList (spreadInto m extra) := by
  induction extra with
  | nil => intro m h; exact h
  | cons kv rest ih =>
    intro m h
    exact ih (setKey m kv.1 kv.2) (mem_keyList_setKey_of_mem m kv.1 k kv.2 h)

theorem getKey_eq_none_iff (m : List (String × α)) (k : String) :
    getKey m k = none ↔ k ∉ keyList m := by
  induction m with
  | nil => simp [getKey, keyList]
  | cons kv rest ih =>
    obtain ⟨k', v'⟩ := kv
    by_cases h : k' = k
    · subst h
      simp [getKey, keyList]
    · have h2 : ¬ k = k' := fun he => h he.symm
      simp only [getKey, if_neg h, keyList, List.map_cons, List.mem_cons, not_or]
      rw [keyList] at ih
      simp [ih, h2]

theorem getKey_spreadInto_of_not_mem (extra : List (String × α)) (k : String)
    (h : k ∉ keyList extra) :
    ∀ m : List (String × α), getKey (spreadInto m extra) k = getKey m k := by
  induction extra with
  | nil => intro m; rfl
  | cons kv rest ih =>
    intro m
    simp only [keyList, List.map_cons, List.mem_cons, not_or] at h
    have step : getKey (spreadInto (setKey m kv.1 kv.2) rest) k =
        getKey (setKey m kv.1 kv.2) k :=
      ih (by simpa [keyList] using h.2) (setKey m kv.1 kv.2)
    calc getKey (spreadInto m (kv :: rest)) k
        = getKey (spreadInto (setKey m kv.1 kv.2) rest) k := rfl
      _ = getKey (setKey m kv.1 kv.2) k := step
      _ = getKey m k := getKey_setKey_ne m kv.1 k kv.2 h.1

theorem getKey_spreadInto_of_getKey (extra : List (String × α)) (k : String) (v : α)
    (hnd : (keyList extra).Nodup) (h : getKey extra k = some v) :
    ∀ m : List (String × α), getKey (spreadInto m extra) k = some v := by
  induction extra with
  | nil => intro m; simp [getKey] at h
  | cons kv rest ih =>
    intro m
    obtain ⟨k', v'⟩ := kv
    simp only [keyList, List.map_cons, List.nodup_cons] at hnd
    by_cases hk : k' = k
    · subst hk
      have hv : v' = v := by simpa [getKey] using h
      have step : getKey (spreadInto (setKey m k' v') rest) k' =
          getKey (setKey m k' v') k' :=
        getKey_spreadInto_of_not_mem rest k' (by simpa [keyList] using hnd.1)
          (setKey m k' v')
      rw [← hv]
      calc getKey (spreadInto m ((k', v') :: rest)) k'
          = getKey (spreadInto (setKey m k' v') rest) k' := rfl
        _ = getKey (setKey m k' v') k' := step
        _ = some v' := getKey_setKey_self m k' v'
    · simp only [getKey, if_neg hk] at h
      exact ih (by simpa [keyList] using hnd.2) h (setKey m k' v')

theorem countKey_eq_one (m : List (String × α)) (k : String)
    (hnd : (keyList m).Nodup) (hmem : k ∈ keyList m) : countKey m k = 1 :=
  List.count_eq_one_of_mem hnd hmem

theorem setKey_liftHeaders (m : List (String × String)) (k : String) (v : String) :
    setKey (liftHeaders m) k (some v) = liftHeaders (setKey m k v) := by
  induction m with
  | nil => simp [liftHeaders, setKey]
  | cons kv rest ih =>
    obtain ⟨k', v'⟩ := kv
    by_cases h : k' = k
    · simp [liftHeaders, setKey, h]
    · simp [liftHeaders, setKey, h] at ih ⊢
      exact ih

theorem spreadInto_liftHeaders (extra : List (String × String)) :
    ∀ base : List (String × String),
      spreadInto (liftHeaders base) (liftHeaders extra) =
        liftHeaders (spreadInto base extra) := by
  induction extra with
  | nil => intro base; rfl
  | cons kv rest ih =>
    intro base
    calc spreadInto (liftHeaders base) (liftHeaders (kv :: rest))
        = spreadInto (setKey (liftHeaders base) kv.1 (some kv.2)) (liftHeaders rest) := rfl
      _ = spreadInto (liftHeaders (setKey base kv.1 kv.2)) (liftHeaders rest) := by
          rw [setKey_liftHeaders]
      _ = liftHeaders (spreadInto (setKey base kv.1 kv.2) rest) := ih _
      _ = liftHeaders (spreadInto base (kv :: rest)) := rfl

theorem filter_isSome_liftHeaders (m : List (String × String)) :
    (liftHeaders m).filter (fun kv => kv.2.isSome) = liftHeaders m := by
  induction m with
  | nil => rfl
  | cons kv rest ih => simp [liftHeaders, List.filter_cons, Option.isSome] at ih ⊢; exact ih

/-! ## Lemmas about `replaceFirst` (JS `String.replace` with a string
pattern) -/

theorem isPrefixOf_append_of_le (p : List Char) :
    ∀ (x y : List Char), p.length ≤ x.length →
      p.isPrefixOf (x ++ y) = p.isPrefixOf x := by
  induction p with
  | nil => intro x y _; simp [List.isPrefixOf]
  | cons c p' ih =>
    intro x y h
    cases x with
    | nil => simp at h
    | cons d x' =>
      simp only [List.cons_append, List.isPrefixOf]
      rw [show x'.append y = x' ++ y from rfl, ih x' y (by simpa using h)]

theorem isPrefixOf_self_append (p b : List Char) : p.isPrefixOf (p ++ b) = true := by
  induction p with
  | nil => simp [List.isPrefixOf]
  | cons c p' ih => simp [List.isPrefixOf, ih]

theorem isPrefixOf_nil_eq_false (p : List Char) (hp : p ≠ []) :
    p.isPrefixOf [] = false := by
  cases p with
  | nil => exact absurd rfl hp
  | cons c p' => rfl

theorem noEarlyMatch_iff (p a : List Char) :
    noEarlyMatch p a = true ↔
      ∀ i, i < a.length → p.isPrefixOf (a.drop i ++ p) = false := by
  unfold noEarlyMatch
  rw [List.all_eq_true]
  constructor
  · intro h i hi
    have := h i (List.mem_range.mpr hi)
    simpa using this
  · intro h i hi
    simpa using h i (List.mem_range.mp hi)

theorem replaceFirst_split (p r b : List Char) (hp : p ≠ []) :
    ∀ a : List Char, noEarlyMatch p a = true →
      replaceFirst p r (a ++ p ++ b) = a ++ r ++ b := by
  intro a
  induction a with
  | nil =>
    intro _
    simp only [List.nil_append]
    cases p with
    | nil => exact absurd rfl hp
    | cons c p' =>
      rw [List.cons_append, replaceFirst, ← List.cons_append,
        if_pos (isPrefixOf_self_append (c :: p') b)]
      simp [List.drop_left]
  | cons c a' ih =>
    intro h
    have h0 : p.isPrefixOf ((c :: a') ++ p) = false :=
      (noEarlyMatch_iff p (c :: a')).mp h 0 (by simp)
    have h0' : p.isPrefixOf ((c :: a') ++ p ++ b) = false := by
      rw [isPrefixOf_append_of_le p ((c :: a') ++ p) b
        (by simp only [List.length_append, List.length_cons]; omega), h0]
    have hrec : noEarlyMatch p a' = true := by
      rw [noEarlyMatch_iff]
      intro i hi
      have := (noEarlyMatch_iff p (c :: a')).mp h (i + 1) (by simpa using hi)
      simpa using this
    have h0'' : p.isPrefixOf (c :: (a' ++ (p ++ b))) = false := by
      have hshape : (c :: a') ++ p ++ b = c :: (a' ++ (p ++ b)) := by simp
      rw [hshape] at h0'
      exact h0'
    have hshape : (c :: a') ++ p ++ b = c :: (a' ++ (p ++ b)) := by simp
    rw [hshape, replaceFirst,
      if_neg (fun hx => by rw [h0''] at hx; exact absurd hx (by simp))]
    have ih' : replaceFirst p r (a' ++ (p ++ b)) = a' ++ (r ++ b) := by
      have := ih hrec
      rw [List.append_assoc] at this
      rw [this, List.append_assoc]
    rw [ih']
    simp

theorem occursB_false_iff (p s : List Char) :
    occursB p s = false ↔ ∀ i, i ≤ s.length → p.isPrefixOf (s.drop i) = false := by
  unfold occursB
  constructor
  · intro h i hi
    cases hb : p.isPrefixOf (s.drop i) with
    | false => rfl
    | true =>
      have : (List.range (s.length + 1)).any (fun i => p.isPrefixOf (s.drop i)) = true :=
        List.any_eq_true.mpr ⟨i, List.mem_range.mpr (by omega), hb⟩
      rw [this] at h
      exact absurd h (by simp)
  · intro h
    cases hb : (List.range (s.length + 1)).any (fun i => p.isPrefixOf (s.drop i)) with
    | false => rfl
    | true =>
      obtain ⟨i, hmem, htrue⟩ := List.any_eq_true.mp hb
      have hfalse := h i (Nat.lt_succ_iff.mp (List.mem_range.mp hmem))
      rw [hfalse] at htrue
      exact absurd htrue (by simp)

theorem isPrefixOf_drop_false (p s : List Char) (hp : p ≠ [])
    (h : occursB p s = false) : ∀ i, p.isPrefixOf (s.drop i) = false := by
  intro i
  rcases le_or_lt i s.length with hle | hlt
  · exact (occursB_false_iff p s).mp h i hle
  · rw [List.drop_eq_nil_of_le (Nat.le_of_lt hlt)]
    exact isPrefixOf_nil_eq_false p hp

theorem replaceFirst_of_no_occurrence (p r : List Char) (hp : p ≠ []) :
    ∀ s, occursB p s = false → replaceFirst p r s = s := by
  intro s
  induction s with
  | nil =>
    intro _
    unfold replaceFirst
    rw [if_neg hp]
  | cons c s' ih =>
    intro h
    have hall := isPrefixOf_drop_false p (c :: s') hp h
    have h0 : p.isPrefixOf (c :: s') = false := by simpa using hall 0
    have hrest : occursB p s' = false := by
      rw [occursB_false_iff]
      intro i _
      simpa using hall (i + 1)
    rw [replaceFirst, if_neg (by simp [h0]), ih hrest]

/-- Core shape of both `formatUrl` variants on a standard template
`pProt ++ mid ++ pHost ++ b`. -/
theorem format_core (pProt pHost proto host mid b : List Char)
    (hpP : pProt ≠ []) (hpH : pHost ≠ [])
    (hm : noEarlyMatch pHost (proto ++ mid) = true) :
    replaceFirst pHost host
        (replaceFirst pProt proto (pProt ++ (mid ++ (pHost ++ b)))) =
      proto ++ (mid ++ (host ++ b)) := by
  have h1 : replaceFirst pProt proto (pProt ++ (mid ++ (pHost ++ b))) =
      proto ++ (mid ++ (pHost ++ b)) := by
    have := replaceFirst_split pProt proto (mid ++ (pHost ++ b)) hpP [] rfl
    simpa using this
  rw [h1]
  have h2 := replaceFirst_split pHost host b hpH (proto ++ mid) hm
  simpa [List.append_assoc] using h2

theorem occursB_append_right (p l1 l2 : List Char) (h : occursB p l2 = true) :
    occursB p (l1 ++ l2) = true := by
  unfold occursB at h ⊢
  obtain ⟨i, hmem, htrue⟩ := List.any_eq_true.mp h
  refine List.any_eq_true.mpr ⟨l1.length + i, List.mem_range.mpr ?_, ?_⟩
  · have := List.mem_range.mp hmem
    simp only [List.length_append]
    omega
  · rw [List.drop_append]
    exact htrue

theorem mem_foldr_append {β : Type} (f : β → List Char) (l : List β) (c : Char)
    (h : c ∈ l.foldr (fun x acc => f x ++ acc) []) : ∃ x, x ∈ l ∧ c ∈ f x := by
  induction l with
  | nil => simp at h
  | cons x l' ih =>
    simp only [List.foldr_cons, List.mem_append] at h
    rcases h with h | h
    · exact ⟨x, List.mem_cons_self x l', h⟩
    · obtain ⟨y, hy, hc⟩ := ih h
      exact ⟨y, List.mem_cons_of_mem x hy, hc⟩

theorem strAppend_assoc (a b c : String) : a ++ b ++ c = a ++ (b ++ c) := by
  obtain ⟨la⟩ := a
  obtain ⟨lb⟩ := b
  obtain ⟨lc⟩ := c
  exact congrArg String.mk (List.append_assoc la lb lc)

theorem strAppend_empty (a : String) : a ++ "" = a := by
  obtain ⟨la⟩ := a
  exact congrArg String.mk (List.append_nil la)

/-! ## C5 -/

/-- C5 counterexample: in the UserAccess variant a caller-supplied
`Authorization` entry with an explicitly undefined value deletes the
header entirely, so the returned map has zero `Authorization` entries,
not exactly one with the caller-supplied value. -/
theorem auth_header_undefined_override :
    UserAccessBase.createHeaders (mkCtx "h" "tok" false) [("Authorization", none)] = [] ∧
    countKey (UserAccessBase.createHeaders (mkCtx "h" "tok" false)
      [("Authorization", none)]) "Authorization" = 0 ∧
    ¬ countKey (UserAccessBase.createHeaders (mkCtx "h" "tok" false)
      [("Authorization", none)]) "Authorization" = 1 :=
  ⟨rfl, rfl, by decide⟩

/-- C5 amended: for string-valued extra headers (all a
`Record<string, string>` admits, and the only values the `Option`-typed
UserAccess variant keeps), the result has exactly one `Authorization`
entry — `Bearer <token>` without an override, the caller's value with
one — and the UserAccess variant agrees with the DeviceAccess one; an
explicitly undefined `Authorization` override in the UserAccess variant
instead removes the entry (see the counterexample). -/
theorem createHeaders_authorization_amended :
    (∀ (ctx : Ctx) (extra : List (String × String)), (keyList extra).Nodup →
      countKey (DeviceAccessBase.createHeaders ctx extra) "Authorization" = 1 ∧
      (getKey extra "Authorization" = none →
        getKey (DeviceAccessBase.createHeaders ctx extra) "Authorization" =
          some ("Bearer " ++ ctx.accessToken)) ∧
      (∀ v, getKey extra "Authorization" = some v →
        getKey (DeviceAccessBase.createHeaders ctx extra) "Authorization" = some v)) ∧
    (∀ (ctx : Ctx) (extra : List (String × String)),
      UserAccessBase.createHeaders ctx (liftHeaders extra) =
        liftHeaders (DeviceAccessBase.createHeaders ctx extra)) := by
  constructor
  · intro ctx extra hnd
    have hbase : (keyList [("Authorization", "Bearer " ++ ctx.accessToken)]).Nodup := by
      simp [keyList]
    have hmem : "Authorization" ∈
        keyList (DeviceAccessBase.createHeaders ctx extra) :=
      mem_keyList_spreadInto extra "Authorization" _ (by simp [keyList])
    refine ⟨countKey_eq_one _ _ (nodup_keyList_spreadInto extra _ hbase) hmem, ?_, ?_⟩
    · intro hnone
      have : getKey (DeviceAccessBase.createHeaders ctx extra) "Authorization" =
          getKey [("Authorization", "Bearer " ++ ctx.accessToken)] "Authorization" :=
        getKey_spreadInto_of_not_mem extra "Authorization"
          ((getKey_eq_none_iff extra "Authorization").mp hnone) _
      rw [this]
      simp [getKey]
    · intro v hv
      exact getKey_spreadInto_of_getKey extra "Authorization" v hnd hv _
  · intro ctx extra
    calc UserAccessBase.createHeaders ctx (liftHeaders extra)
        = (spreadInto (liftHeaders [("Authorization", "Bearer " ++ ctx.accessToken)])
            (liftHeaders extra)).filter (fun kv => kv.2.isSome) := rfl
      _ = (liftHeaders (spreadInto [("Authorization", "Bearer " ++ ctx.accessToken)]
            extra)).filter (fun kv => kv.2.isSome) := by rw [spreadInto_liftHeaders]
      _ = liftHeaders (DeviceAccessBase.createHeaders ctx extra) :=
          filter_isSome_liftHeaders _

/-- Witness for the amended C5 at a concrete override. -/
theorem createHeaders_authorization_amended_witness :
    countKey (DeviceAccessBase.createHeaders (mkCtx "h" "tok" false)
      [("Authorization", "X")]) "Authorization" = 1 ∧
    getKey (DeviceAccessBase.createHeaders (mkCtx "h" "tok" false)
      [("Authorization", "X")]) "Authorization" = some "X" := by
  have h :=
    createHeaders_authorization_amended.1 (mkCtx "h" "tok" false)
      [("Authorization", "X")] (by decide)
  exact ⟨h.1, h.2.2 "X" rfl⟩

/-! ## C6 -/

/-- C6: the UserAccess `createHeaders` result contains no entry with an
undefined value — every returned value is defined, and any merged entry
whose value is undefined is dropped from the result.  (In the
DeviceAccess variant the extra-header values are string-typed, so no
undefined value can arise at all.) -/
theorem createHeaders_drops_undefined (ctx : Ctx)
    (extra : List (String × Option String)) :
    (∀ kv, kv ∈ UserAccessBase.createHeaders ctx extra → kv.2.isSome = true) ∧
    (∀ kv, kv ∈ spreadInto [("Authorization", some ("Bearer " ++ ctx.accessToken))] extra →
      kv.2 = none → kv ∉ UserAccessBase.createHeaders ctx extra) := by
  constructor
  · intro kv hkv
    have h : kv ∈ (spreadInto [("Authorization", some ("Bearer " ++ ctx.accessToken))]
        extra).filter (fun kv => kv.2.isSome) := hkv
    exact (List.mem_filter.mp h).2
  · intro kv _ hnone hcontra
    have h : kv ∈ (spreadInto [("Authorization", some ("Bearer " ++ ctx.accessToken))]
        extra).filter (fun kv => kv.2.isSome) := hcontra
    have := (List.mem_filter.mp h).2
    rw [hnone] at this
    simp at this

/-- Witness for C6 on a map with one undefined and one defined entry. -/
theorem createHeaders_drops_undefined_witness :
    (("Y", some "1") : String × Option String).2.isSome = true :=
  (createHeaders_drops_undefined (mkCtx "h" "tok" false)
    [("Authorization", none), ("Y", some "1")]).1 ("Y", some "1") (by decide)

/-! ## C7 -/

/-- C7: on the standard templates, `formatUrl` replaces `{protocol}`
with `http` when the on-prem flag is true and `https` when it is false
and the host placeholder (`{backend_url}`, `{data_url}` in the Bruce
variant) with the configured backend host; concretely the example
template with `id = "42"` composes to
`https://api.example.com/x/42`. -/
theorem formatUrl_protocol_host :
    (∀ (dataUrl token path : String) (onPrem : Bool),
      DeviceAccessBase.formatUrl (mkCtx dataUrl token onPrem)
          ("{protocol}://{backend_url}" ++ path) none =
        (if onPrem then Protocol.HTTP else Protocol.HTTPS) ++ "://" ++ dataUrl ++ path) ∧
    (∀ (dataUrl token path : String) (onPrem : Bool),
      BruceHandlerBase.formatUrl (mkCtx dataUrl token onPrem)
          ("{protocol}://{data_url}" ++ path) none =
        (if onPrem then Protocol.HTTP else Protocol.HTTPS) ++ "://" ++ dataUrl ++ path) ∧
    DeviceAccessBase.formatUrl (mkCtx "api.example.com" "tok" false)
        (jsReplace "{id}" "42" "{protocol}://{backend_url}/x/{id}") none =
      "https://api.example.com/x/42" := by
  refine ⟨?_, ?_, rfl⟩
  · intro dataUrl token path onPrem
    obtain ⟨lurl⟩ := dataUrl
    obtain ⟨lpath⟩ := path
    cases onPrem with
    | false =>
      exact congrArg String.mk
        (format_core "{protocol}".data "{backend_url}".data "https".data lurl
          "://".data lpath (by decide) (by decide) (by decide))
    | true =>
      exact congrArg String.mk
        (format_core "{protocol}".data "{backend_url}".data "http".data lurl
          "://".data lpath (by decide) (by decide) (by decide))
  · intro dataUrl token path onPrem
    obtain ⟨lurl⟩ := dataUrl
    obtain ⟨lpath⟩ := path
    cases onPrem with
    | false =>
      exact congrArg String.mk
        (format_core "{protocol}".data "{data_url}".data "https".data lurl
          "://".data lpath (by decide) (by decide) (by decide))
    | true =>
      exact congrArg String.mk
        (format_core "{protocol}".data "{data_url}".data "http".data lurl
          "://".data lpath (by decide) (by decide) (by decide))

/-! ## C10 -/

/-- C10 (implicit): `formatUrl` substitutes only the first occurrence of
each placeholder — on a template `a ++ "{protocol}" ++ b` with no
earlier match in `a` and no `{backend_url}` occurrence at all, the
result is exactly `a ++ protocol ++ b`, so every later `{protocol}`
occurrence inside `b` survives verbatim, and no error is raised for
placeholders that remain unreplaced (witnessed concretely on a template
with doubled placeholders). -/
theorem formatUrl_first_occurrence_only :
    (∀ (dataUrl token : String) (onPrem : Bool) (a b : String),
      noEarlyMatch "{protocol}".data a.data = true →
      occursB "{backend_url}".data
        (a.data ++ ((if onPrem then Protocol.HTTP else Protocol.HTTPS).data ++ b.data))
          = false →
      (DeviceAccessBase.formatUrl (mkCtx dataUrl token onPrem)
          (a ++ ("{protocol}" ++ b)) none =
        a ++ ((if onPrem then Protocol.HTTP else Protocol.HTTPS) ++ b)) ∧
      (occursB "{protocol}".data b.data = true →
        occursB "{protocol}".data
          (DeviceAccessBase.formatUrl (mkCtx dataUrl token onPrem)
            (a ++ ("{protocol}" ++ b)) none).data = true)) ∧
    DeviceAccessBase.formatUrl (mkCtx "h.io" "tok" false)
        "{protocol}://{backend_url}/{protocol}/{backend_url}" none =
      "https://h.io/{protocol}/{backend_url}" := by
  refine ⟨?_, rfl⟩
  intro dataUrl token onPrem a b hne hocc
  obtain ⟨la⟩ := a
  obtain ⟨lb⟩ := b
  obtain ⟨lurl⟩ := dataUrl
  cases onPrem with
  | false =>
    have e1 : replaceFirst "{protocol}".data "https".data
        (la ++ ("{protocol}".data ++ lb)) = la ++ ("https".data ++ lb) := by
      have := replaceFirst_split "{protocol}".data "https".data lb (by decide) la hne
      simpa [List.append_assoc] using this
    have e2 : replaceFirst "{backend_url}".data lurl (la ++ ("https".data ++ lb)) =
        la ++ ("https".data ++ lb) :=
      replaceFirst_of_no_occurrence "{backend_url}".data lurl (by decide) _ hocc
    have heq : DeviceAccessBase.formatUrl (mkCtx ⟨lurl⟩ token false)
        (⟨la⟩ ++ ("{protocol}" ++ ⟨lb⟩)) none = ⟨la ++ ("https".data ++ lb)⟩ :=
      congrArg String.mk (by
        show replaceFirst "{backend_url}".data lurl
            (replaceFirst "{protocol}".data "https".data
              (la ++ ("{protocol}".data ++ lb))) = la ++ ("https".data ++ lb)
        rw [e1]; exact e2)
    constructor
    · exact heq.trans (by rfl)
    · intro hb
      rw [heq]
      show occursB "{protocol}".data (la ++ ("https".data ++ lb)) = true
      exact occursB_append_right _ la _ (occursB_append_right _ "https".data _ hb)
  | true =>
    have e1 : replaceFirst "{protocol}".data "http".data
        (la ++ ("{protocol}".data ++ lb)) = la ++ ("http".data ++ lb) := by
      have := replaceFirst_split "{protocol}".data "http".data lb (by decide) la hne
      simpa [List.append_assoc] using this
    have e2 : replaceFirst "{backend_url}".data lurl (la ++ ("http".data ++ lb)) =
        la ++ ("http".data ++ lb) :=
      replaceFirst_of_no_occurrence "{backend_url}".data lurl (by decide) _ hocc
    have heq : DeviceAccessBase.formatUrl (mkCtx ⟨lurl⟩ token true)
        (⟨la⟩ ++ ("{protocol}" ++ ⟨lb⟩)) none = ⟨la ++ ("http".data ++ lb)⟩ :=
      congrArg String.mk (by
        show replaceFirst "{backend_url}".data lurl
            (replaceFirst "{protocol}".data "http".data
              (la ++ ("{protocol}".data ++ lb))) = la ++ ("http".data ++ lb)
        rw [e1]; exact e2)
    constructor
    · exact heq.trans (by rfl)
    · intro hb
      rw [heq]
      show occursB "{protocol}".data (la ++ ("http".data ++ lb)) = true
      exact occursB_append_right _ la _ (occursB_append_right _ "http".data _ hb)

/-- Witness for C10 on a template with a second `{protocol}`
occurrence. -/
theorem formatUrl_first_occurrence_only_witness :
    DeviceAccessBase.formatUrl (mkCtx "d" "t" false)
        ("x" ++ ("{protocol}" ++ "y{protocol}z")) none =
      "x" ++ (Protocol.HTTPS ++ "y{protocol}z") ∧
    occursB "{protocol}".data
      (DeviceAccessBase.formatUrl (mkCtx "d" "t" false)
        ("x" ++ ("{protocol}" ++ "y{protocol}z")) none).data = true := by
  have h :=
    formatUrl_first_occurrence_only.1 "d" "t" false "x" "y{protocol}z"
      (by decide) (by decide)
  exact ⟨h.1, h.2 (by decide)⟩

/-! ## C8 -/

/-- C8 counterexample: the DeviceAccess time-range URL substitutes
`{devID}` raw, so the reserved `/` in the device identifier `a/b`
appears verbatim in the composed URL and its percent-encoding `%2F`
does not appear at all. -/
theorem raw_devid_in_url :
    getDataByTimeRangeUrl (mkCtx "api.example.com" "tok" false) "a/b" "s" 1 2 1 =
      "https://api.example.com/api/account/deviceData/getData/a/b/s/1/2/1" ∧
    occursB "a/b".data
      ("https://api.example.com/api/account/deviceData/getData/a/b/s/1/2/1").data
        = true ∧
    occursB "%2F".data
      ("https://api.example.com/api/account/deviceData/getData/a/b/s/1/2/1").data
        = false :=
  ⟨rfl, by decide, by decide⟩

/-- C8 amended: only the Bruce insight placeholder is percent-encoded —
`fetchSourceInsight` substitutes `encodeURIComponent(insightID)`, whose
output consists solely of unreserved characters and percent escapes
(so a reserved character in the insight identifier never appears raw),
while the DeviceAccess handlers substitute their path placeholders
(e.g. `{devID}`) raw, as the counterexample shows. -/
theorem placeholder_encoding_amended :
    (∀ (id : String) (c : Char), c ∈ (encodeURIComponent id).data →
      (isUnreservedURI c || (c = '%')) = true) ∧
    fetchSourceInsightUrl (mkCtx "api.example.com" "tok" false) none "a/b" =
      "https://api.example.com/api/account/bruce/userInsight/fetch/getSourceInsight/a%2Fb" := by
  constructor
  · intro id c hc
    have hc' : c ∈ id.data.foldr (fun x acc => encodeChar x ++ acc) [] := hc
    obtain ⟨x, _, hcx⟩ := mem_foldr_append encodeChar id.data c hc'
    unfold encodeChar at hcx
    by_cases hu : isUnreservedURI x
    · rw [if_pos hu] at hcx
      have : c = x := by simpa using hcx
      subst this
      simp [hu]
    · rw [if_neg hu] at hcx
      obtain ⟨b, _, hcb⟩ := mem_foldr_append percentEncodeByte (utf8Bytes x.toNat) c hcx
      have hhex : ∀ n, n < 16 → isUnreservedURI (hexDigit n) = true := by decide
      simp only [percentEncodeByte, List.mem_cons, List.not_mem_nil, or_false] at hcb
      rcases hcb with h1 | h2 | h3
      · subst h1; simp
      · subst h2; simp [hhex _ (Nat.mod_lt _ (by norm_num))]
      · subst h3; simp [hhex _ (Nat.mod_lt _ (by norm_num))]
  · rfl

/-- Witness for the amended C8: the `%` produced for the `/` of
`"a/b"`. -/
theorem placeholder_encoding_amended_witness :
    (isUnreservedURI '%' || ('%' = '%')) = true :=
  placeholder_encoding_amended.1 "a/b" '%' (by decide)

/-! ## C9 -/

/-- C9: when the Bruce retry budget is exhausted on an always-failing
axios transport, the surfaced error is `errorMessage` of the last
response and the url; that message contains the request URL, the
upstream status, body, and server header (or its `Unknown Server`
default) when a response was received, and the explicit
`No response received` marker together with the URL when none was; the
DeviceAccess loop propagates the last axios error itself (which carries
the same response). -/
theorem exhaustion_error_contents (α : Type) (resp : Nat → Option AxiosResp)
    (url : String) (t : Nat → Except TransportError α)
    (h : ∀ k, t k = Except.error (TransportError.axios (resp k))) :
    (BruceHandlerBase.requestWithRetry t url).outcome =
      Except.error (BruceFailure.wrapped
        (BruceHandlerBase.errorMessage (resp MAX_RETRIES) url)) ∧
    (DeviceAccessBase.requestWithRetry t).outcome =
      Except.error (some (TransportError.axios (resp MAX_RETRIES))) ∧
    strInfix url (BruceHandlerBase.errorMessage (resp MAX_RETRIES) url) ∧
    (resp MAX_RETRIES = none →
      strInfix "No response received"
        (BruceHandlerBase.errorMessage (resp MAX_RETRIES) url)) ∧
    (∀ r, resp MAX_RETRIES = some r →
      strInfix (toString r.status)
          (BruceHandlerBase.errorMessage (resp MAX_RETRIES) url) ∧
      strInfix r.data (BruceHandlerBase.errorMessage (resp MAX_RETRIES) url) ∧
      strInfix (jsOrDefault r.server "Unknown Server")
        (BruceHandlerBase.errorMessage (resp MAX_RETRIES) url)) := by
  have hrun : runRetry t BruceHandlerBase.sleepMs 0 MAX_RETRIES none =
      ⟨Except.error (some (TransportError.axios (resp MAX_RETRIES))), MAX_RETRIES,
        (List.range' 1 (MAX_RETRIES - 1)).map BruceHandlerBase.sleepMs⟩ :=
    runRetry_always_fails (fun k => TransportError.axios (resp k)) t _ h 14 0 none
  have hdev : runRetry t DeviceAccessBase.sleepMs 0 MAX_RETRIES none =
      ⟨Except.error (some (TransportError.axios (resp MAX_RETRIES))), MAX_RETRIES,
        (List.range' 1 (MAX_RETRIES - 1)).map DeviceAccessBase.sleepMs⟩ :=
    runRetry_always_fails (fun k => TransportError.axios (resp k)) t _ h 14 0 none
  refine ⟨?_, ?_, ?_, ?_, ?_⟩
  · unfold BruceHandlerBase.requestWithRetry
    rw [hrun]
    rfl
  · unfold DeviceAccessBase.requestWithRetry
    rw [hdev]
  · cases hr : resp MAX_RETRIES with
    | none =>
      exact ⟨"\n[URL] ", "\n[EXCEPTION] No response received", rfl⟩
    | some r =>
      refine ⟨"\n[STATUS CODE] " ++ toString r.status ++ "\n[URL] ",
        "\n[SERVER INFO] " ++ jsOrDefault r.server "Unknown Server" ++
          "\n[RESPONSE] " ++ r.data, ?_⟩
      show BruceHandlerBase.errorMessage (some r) url = _
      unfold BruceHandlerBase.errorMessage
      simp only [strAppend_assoc]
  · intro hr
    rw [hr]
    refine ⟨"\n[URL] " ++ url ++ "\n[EXCEPTION] ", "", ?_⟩
    show BruceHandlerBase.errorMessage none url = _
    unfold BruceHandlerBase.errorMessage
    simp only [strAppend_assoc, strAppend_empty]
    rfl
  · intro r hr
    rw [hr]
    refine ⟨⟨"\n[STATUS CODE] ",
      "\n[URL] " ++ url ++ "\n[SERVER INFO] " ++ jsOrDefault r.server "Unknown Server" ++
        "\n[RESPONSE] " ++ r.data, ?_⟩,
      ⟨"\n[STATUS CODE] " ++ toString r.status ++ "\n[URL] " ++ url ++
        "\n[SERVER INFO] " ++ jsOrDefault r.server "Unknown Server" ++
        "\n[RESPONSE] ", "", ?_⟩,
      ⟨"\n[STATUS CODE] " ++ toString r.status ++ "\n[URL] " ++ url ++
        "\n[SERVER INFO] ", "\n[RESPONSE] " ++ r.data, ?_⟩⟩ <;>
      · show BruceHandlerBase.errorMessage (some r) url = _
        unfold BruceHandlerBase.errorMessage
        simp only [strAppend_assoc, strAppend_empty]
        try rfl

/-- Witness for C9 with a no-response axios failure. -/
theorem exhaustion_error_contents_witness :
    (BruceHandlerBase.requestWithRetry
        (fun _ => (Except.error (TransportError.axios none) : Except TransportError Nat))
        "u").outcome =
      Except.error (BruceFailure.wrapped (BruceHandlerBase.errorMessage none "u")) ∧
    strInfix "No response received" (BruceHandlerBase.errorMessage none "u") := by
  have h :=
    exhaustion_error_contents Nat (fun _ => none) "u"
      (fun _ => Except.error (TransportError.axios none)) (fun _ => rfl)
  exact ⟨h.1, h.2.2.2.1 rfl⟩
